import Mathlib

/-!
Verification of the swarm-output processing utilities (`src/swarm_utils.py`).

The Python module is shallowly embedded: Python values that can appear in the
fragment pipeline are modelled by `JVal` (the JSON-decodable values), strings
by `String` over their code points, and fallible operations (Python code that
can raise) by `Except Unit`.  The standard-library pieces the module relies on
(`re.sub`/`re.search` for the two concrete patterns, `json.loads`,
`str.find`/`str.strip`/slicing) are modelled executably with the semantics
Python gives them on these inputs; `\d` is modelled on the ASCII digit range
and `str.strip` on the ASCII whitespace characters, which is the fragment
format the module parses.
-/

/-- Values flowing through the pipeline: the JSON-decodable Python values.
Numbers keep their source lexeme, since no operation of the module inspects a
numeric value (they are only carried through or compared against strings,
and a number never equals a string in Python). -/
inductive JVal where
  | null : JVal
  | bool : Bool → JVal
  | num : String → JVal
  | str : String → JVal
  | arr : List JVal → JVal
  | obj : List (String × JVal) → JVal

/-- Match a literal character sequence at the head of a list, returning the
remainder on success. -/
def matchLit : List Char → List Char → Option (List Char)
  | [], l => some l
  | _ :: _, [] => none
  | p :: ps, c :: cs => if c = p then matchLit ps cs else none

/-- Python `needle in haystack` for strings: substring containment. -/
def hasSub (p : List Char) : List Char → Bool
  | [] => (matchLit p []).isSome
  | c :: cs => (matchLit p (c :: cs)).isSome || hasSub p cs

/-- Python `haystack.find(needle)` restricted to successful positions:
index of the leftmost occurrence. -/
def findSub (p : List Char) : List Char → Option Nat
  | [] => if (matchLit p []).isSome then some 0 else none
  | c :: cs => if (matchLit p (c :: cs)).isSome then some 0
               else (findSub p cs).map (· + 1)

/-- `needle in haystack` on `String`. -/
def hasSubS (needle s : String) : Bool := hasSub needle.data s.data

/-- Python `s.find(sub)`: leftmost index, `-1` when absent. -/
def pyFind (s sub : String) : Int :=
  match findSub sub.data s.data with
  | some i => (i : Int)
  | none => -1

/-- Clamp one endpoint of a Python slice `s[a:b]` to `[0, n]`. -/
def pyIndexClamp (n : Nat) (i : Int) : Nat :=
  if i < 0 then ((n : Int) + i).toNat else min i.toNat n

/-- Python slice `s[a:b]`. -/
def pySlice (s : String) (a b : Int) : String :=
  String.mk ((s.data.take (pyIndexClamp s.data.length b)).drop
    (pyIndexClamp s.data.length a))

/-- Python slice `s[a:]`. -/
def pySliceFrom (s : String) (a : Int) : String :=
  String.mk (s.data.drop (pyIndexClamp s.data.length a))

/-- Python slice `s[:n]` for a nonnegative bound: the first `n` characters. -/
def pyTake (n : Nat) (s : String) : String := String.mk (s.data.take n)

/-- The ASCII whitespace characters stripped by `str.strip()`. -/
def isPyWs (c : Char) : Bool :=
  c = ' ' || c = '\t' || c = '\n' || c = '\r' || c = '\x0b' || c = '\x0c'

/-- Python `s.strip()`. -/
def pyStrip (s : String) : String :=
  String.mk (((s.data.dropWhile isPyWs).reverse.dropWhile isPyWs).reverse)

/-- Python `s * n` for a string and a count (used for the banner rules). -/
def pyRepeat (s : String) (n : Nat) : String :=
  String.mk (List.flatten (List.replicate n s.data))

/-- Python `"sep".join(parts)`. -/
def pyJoin (sep : String) : List String → String
  | [] => ""
  | [x] => x
  | x :: y :: xs => x ++ sep ++ pyJoin sep (y :: xs)

/-- Consume the `[0-9;]*m` tail of an ANSI CSI match: parameter characters
followed by the final `m`.  Returns the remainder after the `m`. -/
def afterParams : List Char → Option (List Char)
  | [] => none
  | c :: cs =>
      if c = 'm' then some cs
      else if c.isDigit || c = ';' then afterParams cs
      else none

/-- Match the regex `\x1b\[[0-9;]*m` at the head of the list
(first substitution of `clean_swarm_text`). -/
def matchCSI (l : List Char) : Option (List Char) :=
  match matchLit ['\x1b', '['] l with
  | some rest => afterParams rest
  | none => none

/-- Match the regex `\\u001b\[[0-9;]*m` — the textual, double-escaped form —
at the head of the list (second substitution of `clean_swarm_text`). -/
def matchEsc2 (l : List Char) : Option (List Char) :=
  match matchLit ['\\', 'u', '0', '0', '1', 'b', '['] l with
  | some rest => afterParams rest
  | none => none

/-- One `re.sub(pat, '', text)` pass: scan left to right, delete each
leftmost non-overlapping match, keep other characters.  Fuelled recursion;
`length + 1` fuel always suffices since every step consumes a character. -/
def subDeleteF (pat : List Char → Option (List Char)) : Nat → List Char → List Char
  | 0, l => l
  | _ + 1, [] => []
  | fuel + 1, c :: cs =>
      match pat (c :: cs) with
      | some rest => subDeleteF pat fuel rest
      | none => c :: subDeleteF pat fuel cs

/-- `re.sub(r'\x1b\[[0-9;]*m', '', text)`. -/
def stripCSI (l : List Char) : List Char := subDeleteF matchCSI (l.length + 1) l

/-- `re.sub(r'\\u001b\[[0-9;]*m', '', text)`. -/
def stripEsc2 (l : List Char) : List Char := subDeleteF matchEsc2 (l.length + 1) l

/-- The `box_chars` translation table of `clean_swarm_text`, in source order.
The source dictionary literal lists every direct glyph a second time as a
`\uXXXX` escape; a Python dict keeps one entry per key (first position,
identical value), so the deduplicated insertion order is kept here. -/
def box_chars : List (Char × Char) :=
  [ ('╭', '+'), ('╮', '+'), ('╰', '+'), ('╯', '+'),
    ('─', '-'), ('│', '|'), ('├', '+'), ('└', '+'),
    ('┤', '+'), ('┬', '+'), ('┴', '+'), ('┼', '+'),
    ('═', '='), ('╔', '+'), ('╗', '+'), ('╚', '+'),
    ('╝', '+'), ('║', '|'), ('╠', '+'), ('╣', '+'),
    ('╦', '+'), ('╩', '+'), ('╬', '+'),
    ('\u2552', '+'), ('\u2553', '+'), ('\u2555', '+'), ('\u2556', '+'),
    ('\u2558', '+'), ('\u2559', '+'), ('\u255b', '+'), ('\u255c', '+'),
    ('\u255e', '+'), ('\u255f', '+'), ('\u2561', '+'), ('\u2562', '+'),
    ('\u2564', '+'), ('\u2565', '+'), ('\u2567', '+'), ('\u2568', '+'),
    ('\u256a', '+'), ('\u256b', '+') ]

/-- One entry of a `text.replace(old, new)` chain applied to one character. -/
def charStep (c : Char) (p : Char × Char) : Char := if c = p.1 then p.2 else c

/-- `text.replace(old, new)` for a single-character pair. -/
def applyReplace (l : List Char) (p : Char × Char) : List Char :=
  l.map (fun c => charStep c p)

/-- The whole `box_chars` replacement chain applied to one character. -/
def charFold (c : Char) : Char := box_chars.foldl charStep c

/-- Is a character one of the keys of the `box_chars` table? -/
def isBoxKey (c : Char) : Bool := box_chars.any (fun p => p.1 == c)

/-- Is a code point in the Unicode Box Drawing block (U+2500 – U+257F)? -/
def isBoxBlock (c : Char) : Bool := 0x2500 ≤ c.toNat && c.toNat ≤ 0x257f

/-- The character-level body of `clean_swarm_text`: the two ANSI
substitutions followed by the `box_chars` replacement chain. -/
def clean_chars (l : List Char) : List Char :=
  box_chars.foldl applyReplace (stripEsc2 (stripCSI l))

/-- `clean_swarm_text` on an actual string. -/
def clean_swarm_text (s : String) : String := String.mk (clean_chars s.data)

/-- `clean_swarm_text` on an arbitrary value: non-strings are returned
unchanged (the `isinstance` guard). -/
def clean_val : JVal → JVal
  | JVal.str s => JVal.str (clean_swarm_text s)
  | v => v

/-- Does the output of a clean still contain an ANSI CSI match
`\x1b\[[0-9;]*m` anywhere? -/
def hasCSI : List Char → Bool
  | [] => false
  | c :: cs => (matchCSI (c :: cs)).isSome || hasCSI cs

/-- Whitespace skipped between JSON tokens by `json.loads`. -/
def skipWs (l : List Char) : List Char :=
  l.dropWhile (fun c => c = ' ' || c = '\t' || c = '\n' || c = '\r')

/-- One hexadecimal digit of a `\uXXXX` escape, by code point: `0`–`9` are
48–57, `a`–`f` are 97–102, `A`–`F` are 65–70. -/
def hexDigit (c : Char) : Option Nat :=
  let n := c.toNat
  if 48 ≤ n && n ≤ 57 then some (n - 48)
  else if 97 ≤ n && n ≤ 102 then some (n - 87)
  else if 65 ≤ n && n ≤ 70 then some (n - 55)
  else none

/-- Four hexadecimal digits. -/
def hex4 : List Char → Option (Nat × List Char)
  | a :: b :: c :: d :: rest =>
      match hexDigit a, hexDigit b, hexDigit c, hexDigit d with
      | some x, some y, some z, some w => some (((x * 16 + y) * 16 + z) * 16 + w, rest)
      | _, _, _, _ => none
  | _ => none

/-- JSON string body after the opening quote.  Strict mode: an unescaped
control character is an error.  A `\uXXXX` surrogate pair is combined; a code
that is not a Unicode scalar value falls back to `Char.ofNat`'s default
(Python would keep a lone surrogate, which `Char` cannot represent; no
pipeline input depends on lone surrogates). -/
def parseJString : Nat → List Char → List Char → Option (String × List Char)
  | 0, _, _ => none
  | _ + 1, acc, '"' :: rest => some (String.mk acc.reverse, rest)
  | fuel + 1, acc, '\\' :: e :: rest =>
      if e = '"' then parseJString fuel ('"' :: acc) rest
      else if e = '\\' then parseJString fuel ('\\' :: acc) rest
      else if e = '/' then parseJString fuel ('/' :: acc) rest
      else if e = 'b' then parseJString fuel ('\x08' :: acc) rest
      else if e = 'f' then parseJString fuel ('\x0c' :: acc) rest
      else if e = 'n' then parseJString fuel ('\n' :: acc) rest
      else if e = 'r' then parseJString fuel ('\r' :: acc) rest
      else if e = 't' then parseJString fuel ('\t' :: acc) rest
      else if e = 'u' then
        match hex4 rest with
        | some (hi, rest2) =>
            if 0xd800 ≤ hi && hi ≤ 0xdbff then
              match rest2 with
              | '\\' :: 'u' :: rest3 =>
                  match hex4 rest3 with
                  | some (lo, rest4) =>
                      if 0xdc00 ≤ lo && lo ≤ 0xdfff then
                        parseJString fuel
                          (Char.ofNat (0x10000 + (hi - 0xd800) * 0x400 + (lo - 0xdc00)) :: acc) rest4
                      else parseJString fuel (Char.ofNat hi :: acc) rest2
                  | none => parseJString fuel (Char.ofNat hi :: acc) rest2
              | _ => parseJString fuel (Char.ofNat hi :: acc) rest2
            else parseJString fuel (Char.ofNat hi :: acc) rest2
        | none => none
      else none
  | _ + 1, _, '\\' :: [] => none
  | fuel + 1, acc, c :: rest =>
      if c.toNat < 0x20 then none else parseJString fuel (c :: acc) rest
  | _ + 1, _, [] => none

/-- Lex the digits of a JSON number part. -/
def lexDigits (l : List Char) : List Char × List Char :=
  (l.takeWhile Char.isDigit, l.dropWhile Char.isDigit)

/-- Lex one JSON number, returning its lexeme.  The grammar of the lexeme is
checked by the caller insofar as a malformed tail simply ends the lexeme and
then fails the surrounding delimiter check, exactly as in `json.loads`. -/
def parseNumber (l : List Char) : Option (String × List Char) :=
  let (neg, l1) := match l with
    | '-' :: rest => (['-'], rest)
    | _ => (([] : List Char), l)
  match l1 with
  | d :: _ =>
      if d.isDigit then
        let (ds, l2) := lexDigits l1
        let (frac, l3) := match l2 with
          | '.' :: f :: rest =>
              if f.isDigit then
                let (fs, l3) := lexDigits (f :: rest)
                ('.' :: fs, l3)
              else (([] : List Char), l2)
          | _ => (([] : List Char), l2)
        let (ex, l4) := match l3 with
          | e :: rest =>
              if e = 'e' || e = 'E' then
                match rest with
                | s :: rest2 =>
                    if s = '+' || s = '-' then
                      match rest2 with
                      | d2 :: _ =>
                          if d2.isDigit then
                            let (es, l4) := lexDigits rest2
                            (e :: s :: es, l4)
                          else (([] : List Char), l3)
                      | [] => (([] : List Char), l3)
                    else if s.isDigit then
                      let (es, l4) := lexDigits rest
                      (e :: es, l4)
                    else (([] : List Char), l3)
                | [] => (([] : List Char), l3)
              else (([] : List Char), l3)
          | [] => (([] : List Char), l3)
        some (String.mk (neg ++ ds ++ frac ++ ex), l4)
      else none
  | [] => none

/-- Python-dict insertion: an existing key keeps its position and takes the
new value; a new key is appended. -/
def insertPair (fs : List (String × JVal)) (k : String) (v : JVal) : List (String × JVal) :=
  match fs with
  | [] => [(k, v)]
  | (k0, v0) :: rest => if k0 = k then (k0, v) :: rest else (k0, v0) :: insertPair rest k v

/-- Build a Python dict from parsed key/value pairs in order. -/
def dictOfPairs (ps : List (String × JVal)) : List (String × JVal) :=
  ps.foldl (fun acc p => insertPair acc p.1 p.2) []

mutual

/-- Recursive-descent model of `json.loads` on one value.  Fuel decreases at
every call; `2 * length + 8` fuel suffices since every other call consumes at
least one input character. -/
def parseValue : Nat → List Char → Option (JVal × List Char)
  | 0, _ => none
  | fuel + 1, l =>
      let l := skipWs l
      match matchLit ['n', 'u', 'l', 'l'] l with
      | some rest => some (JVal.null, rest)
      | none =>
      match matchLit ['t', 'r', 'u', 'e'] l with
      | some rest => some (JVal.bool true, rest)
      | none =>
      match matchLit ['f', 'a', 'l', 's', 'e'] l with
      | some rest => some (JVal.bool false, rest)
      | none =>
      match matchLit ['N', 'a', 'N'] l with
      | some rest => some (JVal.num "NaN", rest)
      | none =>
      match matchLit ['I', 'n', 'f', 'i', 'n', 'i', 't', 'y'] l with
      | some rest => some (JVal.num "Infinity", rest)
      | none =>
      match matchLit ['-', 'I', 'n', 'f', 'i', 'n', 'i', 't', 'y'] l with
      | some rest => some (JVal.num "-Infinity", rest)
      | none =>
      match l with
      | '"' :: rest =>
          match parseJString (rest.length + 1) [] rest with
          | some (s, rest2) => some (JVal.str s, rest2)
          | none => none
      | '[' :: rest =>
          match skipWs rest with
          | ']' :: rest2 => some (JVal.arr [], rest2)
          | rest2 =>
              match parseElems fuel rest2 with
              | some (xs, rest3) => some (JVal.arr xs, rest3)
              | none => none
      | '{' :: rest =>
          match skipWs rest with
          | '}' :: rest2 => some (JVal.obj [], rest2)
          | rest2 =>
              match parsePairs fuel rest2 with
              | some (ps, rest3) => some (JVal.obj (dictOfPairs ps), rest3)
              | none => none
      | c :: _ =>
          if c = '-' || c.isDigit then
            match parseNumber l with
            | some (lex, rest2) => some (JVal.num lex, rest2)
            | none => none
          else none
      | [] => none

/-- The elements of a non-empty JSON array after the opening bracket. -/
def parseElems : Nat → List Char → Option (List JVal × List Char)
  | 0, _ => none
  | fuel + 1, l =>
      match parseValue fuel l with
      | some (v, rest) =>
          match skipWs rest with
          | ',' :: rest2 =>
              match parseElems fuel rest2 with
              | some (vs, rest3) => some (v :: vs, rest3)
              | none => none
          | ']' :: rest2 => some ([v], rest2)
          | _ => none
      | none => none

/-- The members of a non-empty JSON object after the opening brace. -/
def parsePairs : Nat → List Char → Option (List (String × JVal) × List Char)
  | 0, _ => none
  | fuel + 1, l =>
      match skipWs l with
      | '"' :: rest =>
          match parseJString (rest.length + 1) [] rest with
          | some (k, rest2) =>
              match skipWs rest2 with
              | ':' :: rest3 =>
                  match parseValue fuel rest3 with
                  | some (v, rest4) =>
                      match skipWs rest4 with
                      | ',' :: rest5 =>
                          match parsePairs fuel rest5 with
                          | some (ps, rest6) => some ((k, v) :: ps, rest6)
                          | none => none
                      | '}' :: rest5 => some ([(k, v)], rest5)
                      | _ => none
                  | none => none
              | _ => none
          | none => none
      | _ => none

end

/-- `json.loads` on a whole string: one value, then only trailing whitespace. -/
def json_loads (s : String) : Option JVal :=
  match parseValue (2 * s.data.length + 8) s.data with
  | some (v, rest) => if (skipWs rest).isEmpty then some v else none
  | none => none

/-- Does an association list (Python dict) carry a key?  (`'text' in item`). -/
def hasKeyF (fs : List (String × JVal)) (k : String) : Bool :=
  fs.any (fun p => p.1 == k)

/-- `item[k]` for a key known to be present (`JVal.null` is returned for an
absent key; every call site is guarded by `hasKeyF`). -/
def lookupD (fs : List (String × JVal)) (k : String) : JVal :=
  match fs with
  | [] => JVal.null
  | (k0, v) :: rest => if k0 = k then v else lookupD rest k

/-- `dict.get(k)`: `none` for an absent key. -/
def lookupKey (fs : List (String × JVal)) (k : String) : Option JVal :=
  match fs with
  | [] => none
  | (k0, v) :: rest => if k0 = k then some v else lookupKey rest k

/-- `item[k] = f(item[k])` on a dict: rewrite the value at the (unique) key,
keeping its position; a dict without the key is unchanged. -/
def updateKey (fs : List (String × JVal)) (k : String) (f : JVal → JVal) :
    List (String × JVal) :=
  match fs with
  | [] => []
  | (k0, v) :: rest => if k0 = k then (k0, f v) :: rest else (k0, v) :: updateKey rest k f

/-- Python `needle in value` for a string needle against an arbitrary value:
substring test on a string, element equality on a list (a string equals no
non-string, so only `str` elements can match), key test on a dict, and a
`TypeError` on a non-container. -/
def pyInVal (needle : String) : JVal → Except Unit Bool
  | JVal.str s => Except.ok (hasSubS needle s)
  | JVal.arr xs => Except.ok (xs.any (fun x =>
      match x with
      | JVal.str t => t == needle
      | _ => false))
  | JVal.obj fs => Except.ok (hasKeyF fs needle)
  | _ => Except.error ()

/-- Python `for item in value` (used when a parsed payload is iterated):
a list yields its elements, a string its characters, a dict its keys, and a
non-iterable raises `TypeError`. -/
def pyIter : JVal → Except Unit (List JVal)
  | JVal.arr xs => Except.ok xs
  | JVal.str s => Except.ok (s.data.map (fun c => JVal.str (String.mk [c])))
  | JVal.obj fs => Except.ok (fs.map (fun p => JVal.str p.1))
  | _ => Except.error ()

/-- `clean_swarm_output`'s per-element action: a dict with a `text` key is
copied with that value passed through `clean_swarm_text`; anything else
passes through unchanged. -/
def cleanItem (item : JVal) : JVal :=
  match item with
  | JVal.obj fs => if hasKeyF fs "text" then JVal.obj (updateKey fs "text" clean_val) else item
  | _ => item

/-- The accumulator loop of `clean_swarm_output`: start from `cleaned_data`
and append one cleaned element per iteration. -/
def cleanLoop (acc : List JVal) : List JVal → List JVal
  | [] => acc
  | item :: rest => cleanLoop (acc ++ [cleanItem item]) rest

/-- `clean_swarm_output`. -/
def clean_swarm_output (json_data : List JVal) : List JVal := cleanLoop [] json_data

/-- One agent-response entry (`{'agent_id': ..., 'response': ...}`). -/
structure AgentResponse where
  agent_id : String
  response : String
deriving DecidableEq

/-- One metrics entry (`{'agent_id': ..., 'metrics': ...}`). -/
structure MetricEntry where
  agent_id : String
  metrics : String
deriving DecidableEq

/-- The `content_sections` record built by `extract_swarm_content`. -/
structure ExtractedContent where
  swarm_status : Option JVal
  agent_responses : List AgentResponse
  metrics : List MetricEntry
  collective_knowledge : List JVal

/-- The empty `content_sections` the extractor starts from. -/
def emptyContent : ExtractedContent := ⟨none, [], [], []⟩

/-- `re.search(r'Agent agent_\d+.*PAT', text)` at one start position: the
literal `Agent agent_`, at least one digit, then `PAT` somewhere later with no
newline in between (`.` does not match a newline). -/
def agentHere (lit : List Char) (l : List Char) : Bool :=
  match matchLit ['A', 'g', 'e', 'n', 't', ' ', 'a', 'g', 'e', 'n', 't', '_'] l with
  | some rest =>
      match rest with
      | d :: rest2 => d.isDigit && hasSub lit (rest2.takeWhile (fun c => c != '\n'))
      | [] => false
  | none => false

/-- `re.search(r'Agent agent_\d+.*PAT', text)`: does any start position match? -/
def scanAgent (lit : List Char) : List Char → Bool
  | [] => false
  | c :: cs => agentHere lit (c :: cs) || scanAgent lit cs

/-- The response-classification test `re.search(r'Agent agent_\d+.*Response:', text)`. -/
def respPattern (s : String) : Bool := scanAgent ['R', 'e', 's', 'p', 'o', 'n', 's', 'e', ':'] s.data

/-- The metrics-classification test `re.search(r'Agent agent_\d+.*Metrics:', text)`. -/
def metricsPattern (s : String) : Bool := scanAgent ['M', 'e', 't', 'r', 'i', 'c', 's', ':'] s.data

/-- Group 1 of `re.search(r'Agent (agent_\d+)', text)` at one start position:
`agent_` plus the maximal digit run, if at least one digit follows. -/
def agentIdHere (l : List Char) : Option String :=
  match matchLit ['A', 'g', 'e', 'n', 't', ' ', 'a', 'g', 'e', 'n', 't', '_'] l with
  | some rest =>
      let ds := rest.takeWhile Char.isDigit
      if ds.isEmpty then none else some (String.mk ("agent_".data ++ ds))
  | none => none

/-- Group 1 of the leftmost `re.search(r'Agent (agent_\d+)', text)` match. -/
def findAgentId : List Char → Option String
  | [] => none
  | c :: cs =>
      match agentIdHere (c :: cs) with
      | some g => some g
      | none => findAgentId cs

/-- `agent_match.group(1) if agent_match else 'unknown'`. -/
def agentIdOf (s : String) : String :=
  match findAgentId s.data with
  | some g => g
  | none => "unknown"

/-- The agent-response entry built for a fragment in the response branch. -/
def respEntry (s : String) : AgentResponse :=
  let response_start : Int := pyFind s "Response:" + 9
  let response_end : Int :=
    if hasSubS "\n\nMetrics:" s then pyFind s "\n\nMetrics:" else (s.data.length : Int)
  ⟨agentIdOf s, clean_swarm_text (pyStrip (pySlice s response_start response_end))⟩

/-- The metrics entry built for a fragment in the metrics branch. -/
def metricsEntry (s : String) : MetricEntry :=
  let metrics_start : Int := pyFind s "Metrics:" + 8
  ⟨agentIdOf s, clean_swarm_text (pyStrip (pySliceFrom s metrics_start))⟩

/-- The knowledge-cleaning loop body: `if 'content' in item:` then
`item['content'] = clean_swarm_text(item['content'])`.  The membership test
raises on a non-container; indexing a string or list with the string key
raises; both are caught by the surrounding bare `except`. -/
def cleanKItem (v : JVal) : Except Unit JVal :=
  match pyInVal "content" v with
  | Except.error e => Except.error e
  | Except.ok false => Except.ok v
  | Except.ok true =>
      match v with
      | JVal.obj fs => Except.ok (JVal.obj (updateKey fs "content" clean_val))
      | _ => Except.error ()

/-- The knowledge-cleaning loop over all parsed items. -/
def cleanKnowledgeItems : List JVal → Except Unit (List JVal)
  | [] => Except.ok []
  | v :: vs =>
      match cleanKItem v with
      | Except.error e => Except.error e
      | Except.ok v2 =>
          match cleanKnowledgeItems vs with
          | Except.error e => Except.error e
          | Except.ok vs2 => Except.ok (v2 :: vs2)

/-- The collective-knowledge branch of `extract_swarm_content`:
`knowledge_start = text.find('[')`, then `json.loads(text[knowledge_start:])`
inside `try`, cleaning each item's `content`; any failure leaves the section
at its previous value (`except: pass`). -/
def knowledgeUpdate (old : List JVal) (s : String) : List JVal :=
  match findSub ['['] s.data with
  | none => old
  | some i =>
      match json_loads (String.mk (s.data.drop i)) with
      | none => old
      | some (JVal.arr items) =>
          match cleanKnowledgeItems items with
          | Except.ok items2 => items2
          | Except.error _ => old
      | some _ => old

/-- Modelled from the spec: the same branch with the bracket search started
at the `Collective Knowledge:` marker — "the body is located by finding the
first `[` character at or after that marker".  Stated only to compare with
the source's `knowledgeUpdate`, whose `find` starts at position 0. -/
def knowledgeUpdateSpecFind (old : List JVal) (s : String) : List JVal :=
  match findSub "Collective Knowledge:".data s.data with
  | none => old
  | some m =>
      match findSub ['['] (s.data.drop m) with
      | none => old
      | some j =>
          match json_loads (String.mk (s.data.drop (m + j))) with
          | none => old
          | some (JVal.arr items) =>
              match cleanKnowledgeItems items with
              | Except.ok items2 => items2
              | Except.error _ => old
          | some _ => old

/-- One iteration of the `extract_swarm_content` loop, parameterised by the
collective-knowledge branch (`kf`).  Only a dict with a `text` key is
inspected; `'Swarm Status' in text` is evaluated first and raises for a
non-container text; a text value that passes that test without matching is
then handed to `re.search`, which raises for any non-string. -/
def extractStepWith (kf : List JVal → String → List JVal)
    (cs : ExtractedContent) (item : JVal) : Except Unit ExtractedContent :=
  match item with
  | JVal.obj fs =>
      if hasKeyF fs "text" then
        let text := lookupD fs "text"
        match pyInVal "Swarm Status" text with
        | Except.error e => Except.error e
        | Except.ok true =>
            Except.ok ⟨some (clean_val text), cs.agent_responses, cs.metrics,
              cs.collective_knowledge⟩
        | Except.ok false =>
            match text with
            | JVal.str s =>
                if respPattern s then
                  Except.ok ⟨cs.swarm_status, cs.agent_responses ++ [respEntry s],
                    cs.metrics, cs.collective_knowledge⟩
                else if metricsPattern s then
                  Except.ok ⟨cs.swarm_status, cs.agent_responses,
                    cs.metrics ++ [metricsEntry s], cs.collective_knowledge⟩
                else if hasSubS "Collective Knowledge:" s then
                  Except.ok ⟨cs.swarm_status, cs.agent_responses, cs.metrics,
                    kf cs.collective_knowledge s⟩
                else Except.ok cs
            | _ => Except.error ()
      else Except.ok cs
  | _ => Except.ok cs

/-- The `extract_swarm_content` loop over all fragments. -/
def extractGoWith (kf : List JVal → String → List JVal)
    (cs : ExtractedContent) : List JVal → Except Unit ExtractedContent
  | [] => Except.ok cs
  | item :: rest =>
      match extractStepWith kf cs item with
      | Except.error e => Except.error e
      | Except.ok cs2 => extractGoWith kf cs2 rest

/-- `extract_swarm_content`. -/
def extract_swarm_content (json_data : List JVal) : Except Unit ExtractedContent :=
  extractGoWith knowledgeUpdate emptyContent json_data

/-- The extractor as the spec describes its knowledge branch (bracket search
from the marker); used only to compare against `extract_swarm_content`. -/
def extract_content_spec_find (json_data : List JVal) : Except Unit ExtractedContent :=
  extractGoWith knowledgeUpdateSpecFind emptyContent json_data

/-- The `metrics` component of an extraction result (`[]` on a raise),
used to state facts about one component of the result. -/
def metricsOf (r : Except Unit ExtractedContent) : List MetricEntry :=
  match r with
  | Except.ok c => c.metrics
  | Except.error _ => []

/-- The `collective_knowledge` component of an extraction result
(`[]` on a raise). -/
def knowledgeOf (r : Except Unit ExtractedContent) : List JVal :=
  match r with
  | Except.ok c => c.collective_knowledge
  | Except.error _ => []

/-- Truthiness of a JSON number from its lexeme: a number is falsy exactly
when its mantissa has no nonzero digit (`0`, `-0.00`, `0e5`, ...); the
digit-free lexemes `NaN` and `Infinity` are truthy. -/
def numTruthy (lex : String) : Bool :=
  (lex.data.takeWhile (fun c => c != 'e' && c != 'E')).any (fun c => c.isDigit && c != '0')
    || !(lex.data.any Char.isDigit)

/-- Python truthiness of a value (`if extracted_content['swarm_status']:`). -/
def pyTruthy : JVal → Bool
  | JVal.null => false
  | JVal.bool b => b
  | JVal.num lex => numTruthy lex
  | JVal.str s => !s.data.isEmpty
  | JVal.arr xs => !xs.isEmpty
  | JVal.obj fs => !fs.isEmpty

/-- Truthiness of the optional `swarm_status` slot (`None` is falsy). -/
def statusTruthy : Option JVal → Bool
  | none => false
  | some v => pyTruthy v

/-- The value appended for the status section (only read when truthy). -/
def statusVal : Option JVal → JVal
  | none => JVal.null
  | some v => v

/-- The two lines appended per agent response: the `\n{agent_id}:` header and
the body, truncated to `max_response_length` characters with a trailing
ellipsis when longer. -/
def respLines (maxLen : Nat) (r : AgentResponse) : List JVal :=
  [JVal.str ("\n" ++ r.agent_id ++ ":"),
   JVal.str (if r.response.length > maxLen then pyTake maxLen r.response ++ "..."
             else r.response)]

/-- The two lines appended per metrics entry (never truncated). -/
def metricLines (m : MetricEntry) : List JVal :=
  [JVal.str ("\n" ++ m.agent_id ++ ":"), JVal.str m.metrics]

/-- The `summary` list built by `format_swarm_summary` before joining. -/
def summaryList (ec : ExtractedContent) (maxLen : Nat) : List JVal :=
  [JVal.str "SWARM ANALYSIS SUMMARY", JVal.str (pyRepeat "=" 60)]
    ++ (if statusTruthy ec.swarm_status then
          [JVal.str "\nSWARM STATUS:", JVal.str (pyRepeat "-" 40),
           statusVal ec.swarm_status]
        else [])
    ++ (if ec.agent_responses.isEmpty then []
        else [JVal.str "\nAGENT RESPONSES:", JVal.str (pyRepeat "-" 40)]
          ++ (ec.agent_responses.map (respLines maxLen)).flatten)
    ++ (if ec.metrics.isEmpty then []
        else [JVal.str "\n\nPERFORMANCE METRICS:", JVal.str (pyRepeat "-" 40)]
          ++ (ec.metrics.map metricLines).flatten)

/-- A summary entry must be a string for `"\n".join` to accept it. -/
def strOfJVal : JVal → Option String
  | JVal.str s => some s
  | _ => none

/-- `"\n".join` raises `TypeError` unless every entry is a string. -/
def allStrs : List JVal → Option (List String)
  | [] => some []
  | v :: vs =>
      match strOfJVal v, allStrs vs with
      | some s, some ss => some (s :: ss)
      | _, _ => none

/-- `format_swarm_summary`: build the section list and join it with
newlines; a non-string `swarm_status` value makes the join raise. -/
def format_swarm_summary (ec : ExtractedContent) (max_response_length : Nat) :
    Except Unit String :=
  match allStrs (summaryList ec max_response_length) with
  | some ss => Except.ok (pyJoin "\n" ss)
  | none => Except.error ()

/-- The record returned by `display_swarm_analysis`. -/
structure DisplayResult where
  cleaned_data : List JVal
  extracted_content : ExtractedContent

/-- `display_swarm_analysis`: resolve the `content` payload (list as-is;
string parsed as JSON, wrapped as one synthetic `text` fragment when the
parse fails; anything else as the empty sequence), clean, extract, and —
when verbose — render the summary (whose `TypeError`, were one possible,
would propagate).  File-less side effects (the `print`) are dropped. -/
def display_swarm_analysis (swarm_result : List (String × JVal)) (verbose : Bool) :
    Except Unit DisplayResult :=
  let json_data_e : Except Unit (List JVal) :=
    match lookupKey swarm_result "content" with
    | some (JVal.arr xs) => Except.ok xs
    | some (JVal.str s) =>
        match json_loads s with
        | some v => pyIter v
        | none => Except.ok [JVal.obj [("text", JVal.str s)]]
    | _ => Except.ok []
  match json_data_e with
  | Except.error e => Except.error e
  | Except.ok json_data =>
      let cleaned := clean_swarm_output json_data
      match extract_swarm_content cleaned with
      | Except.error e => Except.error e
      | Except.ok extracted =>
          if verbose then
            match format_swarm_summary extracted 500 with
            | Except.error e => Except.error e
            | Except.ok _ => Except.ok ⟨cleaned, extracted⟩
          else Except.ok ⟨cleaned, extracted⟩

/-- `save_cleaned_swarm_output`: a string payload goes through `json.loads`
with no surrounding `try`, so a parse failure propagates; a parsed non-list
is iterated by the cleaning loop.  The file write is modelled by returning
the cleaned list that would be serialised. -/
def save_cleaned_swarm_output (json_data : List JVal ⊕ String) :
    Except Unit (List JVal) :=
  match json_data with
  | Sum.inl xs => Except.ok (clean_swarm_output xs)
  | Sum.inr s =>
      match json_loads s with
      | none => Except.error ()
      | some v =>
          match pyIter v with
          | Except.error e => Except.error e
          | Except.ok xs => Except.ok (clean_swarm_output xs)

/-- List lookup by position (used for heap addressing below). -/
def nth {α : Type} : List α → Nat → Option α
  | [], _ => none
  | x :: _, 0 => some x
  | _ :: l, n + 1 => nth l n

/-- A heap of Python dict objects, addressed by allocation index, for stating
aliasing facts about `clean_swarm_output`. -/
abbrev Heap : Type := List (List (String × JVal))

/-- An element of the input list as Python sees it: dicts are references
into the heap, all other values behave as immutable values here. -/
inductive HElem where
  | ref : Nat → HElem
  | val : JVal → HElem

/-- One iteration of `clean_swarm_output` over the heap: a referenced dict
with a `text` key is shallow-copied (`item.copy()`) to a fresh address with
the rewritten text; everything else is passed through and no existing heap
cell is ever written. -/
def cleanStepH (h : Heap) (e : HElem) : Heap × HElem :=
  match e with
  | HElem.ref a =>
      match nth h a with
      | some fs =>
          if hasKeyF fs "text" then
            (h ++ [updateKey fs "text" clean_val], HElem.ref h.length)
          else (h, HElem.ref a)
      | none => (h, HElem.ref a)
  | HElem.val v => (h, HElem.val v)

/-- The `clean_swarm_output` loop over the heap, threading allocations left
to right exactly as the Python loop appends. -/
def cleanHeap (h : Heap) : List HElem → Heap × List HElem
  | [] => (h, [])
  | e :: rest =>
      let s := cleanStepH h e
      let r := cleanHeap s.1 rest
      (r.1, s.2 :: r.2)

/-! ## Lemmas about the text cleaner -/

/-- Two strings with the same character data are equal. -/
theorem stringDataEq : ∀ {s t : String}, s.data = t.data → s = t := by
  intro s t h
  cases s
  cases t
  exact congrArg String.mk h

theorem matchCSI_none_of_head {c : Char} {cs : List Char} (h : c ≠ '\x1b') :
    matchCSI (c :: cs) = none := by
  simp [matchCSI, matchLit, h]

theorem matchEsc2_none_of_head {c : Char} {cs : List Char} (h : c ≠ '\\') :
    matchEsc2 (c :: cs) = none := by
  simp [matchEsc2, matchLit, h]

/-- A deletion pass is the identity on a list whose characters can never
start a match. -/
theorem subDeleteF_id {pat : List Char → Option (List Char)} {p : Char → Prop}
    (hp : ∀ c cs, p c → pat (c :: cs) = none) :
    ∀ fuel l, (∀ c ∈ l, p c) → subDeleteF pat fuel l = l := by
  intro fuel
  induction fuel with
  | zero => intro l _; rfl
  | succ n ih =>
    intro l hl
    cases l with
    | nil => rfl
    | cons c cs =>
      have hc : p c := hl c (List.mem_cons_self c cs)
      simp only [subDeleteF, hp c cs hc]
      rw [ih cs (fun x hx => hl x (List.mem_cons_of_mem c hx))]

theorem stripCSI_id {l : List Char} (h : ∀ c ∈ l, c ≠ '\x1b') : stripCSI l = l :=
  subDeleteF_id (fun _ _ hc => matchCSI_none_of_head hc) (l.length + 1) l h

theorem stripEsc2_id {l : List Char} (h : ∀ c ∈ l, c ≠ '\\') : stripEsc2 l = l :=
  subDeleteF_id (fun _ _ hc => matchEsc2_none_of_head hc) (l.length + 1) l h

/-- A chain of single-character replaces is the map of the folded
per-character function. -/
theorem foldl_applyReplace (ps : List (Char × Char)) :
    ∀ l : List Char, ps.foldl applyReplace l = l.map (fun c => ps.foldl charStep c) := by
  induction ps with
  | nil => intro l; simp
  | cons p ps ih =>
    intro l
    rw [List.foldl_cons, ih (applyReplace l p)]
    simp only [applyReplace, List.map_map, List.foldl_cons]
    rfl

theorem foldl_charStep_id {ps : List (Char × Char)} {c : Char}
    (h : ∀ p ∈ ps, p.1 ≠ c) : ps.foldl charStep c = c := by
  induction ps with
  | nil => rfl
  | cons p ps ih =>
    have hne : c ≠ p.1 := fun he => h p (List.mem_cons_self p ps) he.symm
    have h1 : charStep c p = c := by simp [charStep, hne]
    rw [List.foldl_cons, h1]
    exact ih (fun q hq => h q (List.mem_cons_of_mem p hq))

theorem foldl_charStep_mem (ps : List (Char × Char)) :
    ∀ c : Char, ps.foldl charStep c = c ∨ ps.foldl charStep c ∈ ps.map Prod.snd := by
  induction ps with
  | nil => intro c; exact Or.inl rfl
  | cons p ps ih =>
    intro c
    rw [List.foldl_cons]
    rcases ih (charStep c p) with h | h
    · rw [h]
      by_cases he : c = p.1
      · exact Or.inr (by simp [charStep, he])
      · exact Or.inl (by simp [charStep, he])
    · exact Or.inr (List.mem_cons_of_mem _ h)

theorem charFold_of_not_key {c : Char} (h : isBoxKey c = false) : charFold c = c := by
  apply foldl_charStep_id
  intro p hp he
  have : box_chars.any (fun q => q.1 == c) = true :=
    List.any_eq_true.2 ⟨p, hp, by simp [he]⟩
  rw [isBoxKey] at h
  simp [this] at h

set_option maxRecDepth 4000 in
/-- Checked over the (finite) table: folding any table key lands outside
the table's keys. -/
theorem key_fold_not_key_b : box_chars.all (fun p => !(isBoxKey (charFold p.1))) = true := by
  rfl

theorem key_fold_not_key : ∀ p ∈ box_chars, isBoxKey (charFold p.1) = false := by
  intro p hp
  have := List.all_eq_true.1 key_fold_not_key_b p hp
  simpa using this

theorem charFold_not_key (c : Char) : isBoxKey (charFold c) = false := by
  cases h : isBoxKey c with
  | false => rw [charFold_of_not_key h]; exact h
  | true =>
    obtain ⟨p, hp, he⟩ := List.any_eq_true.1 h
    have he2 : p.1 = c := by simpa using he
    rw [← he2]
    exact key_fold_not_key p hp

theorem charFold_idem (c : Char) : charFold (charFold c) = charFold c :=
  charFold_of_not_key (charFold_not_key c)

theorem map_charFold_idem : ∀ l : List Char, (l.map charFold).map charFold = l.map charFold := by
  intro l
  induction l with
  | nil => rfl
  | cons c cs ih => simp only [List.map_cons, ih, charFold_idem]

set_option maxRecDepth 4000 in
/-- Checked over the table: every replacement value is a plain ASCII glyph,
in particular neither the ESC control character nor a backslash. -/
theorem box_vals_safe_b :
    (box_chars.map Prod.snd).all (fun v => v != '\x1b' && v != '\\') = true := by
  rfl

theorem box_vals_safe : ∀ v ∈ box_chars.map Prod.snd, v ≠ '\x1b' ∧ v ≠ '\\' := by
  intro v hv
  have := List.all_eq_true.1 box_vals_safe_b v hv
  constructor
  · intro he; simp [he] at this
  · intro he; simp [he] at this

/-- Does a string avoid both characters that can begin an ANSI match? -/
def noEscBs (s : String) : Bool := s.data.all (fun c => c != '\x1b' && c != '\\')

theorem noEscBs_spec {s : String} (h : noEscBs s = true) :
    ∀ c ∈ s.data, c ≠ '\x1b' ∧ c ≠ '\\' := by
  intro c hc
  have := List.all_eq_true.1 h c hc
  constructor
  · intro he; simp [he] at this
  · intro he; simp [he] at this

/-- On a list with no ESC and no backslash, cleaning is exactly the
character-wise box replacement. -/
theorem clean_chars_eq {l : List Char} (h : ∀ c ∈ l, c ≠ '\x1b' ∧ c ≠ '\\') :
    clean_chars l = l.map charFold := by
  unfold clean_chars
  rw [stripCSI_id (fun c hc => (h c hc).1), stripEsc2_id (fun c hc => (h c hc).2),
    foldl_applyReplace]
  rfl

/-- The data of a cleaned string is the cleaned data. -/
theorem clean_text_data (s : String) : (clean_swarm_text s).data = clean_chars s.data := by
  simp only [clean_swarm_text]

/-- `clean_chars_eq` lifted to `String`. -/
theorem clean_data_eq {s : String} (h : ∀ c ∈ s.data, c ≠ '\x1b' ∧ c ≠ '\\') :
    (clean_swarm_text s).data = s.data.map charFold := by
  rw [clean_text_data]
  exact clean_chars_eq h

theorem clean_output_safe {s : String} (h : ∀ c ∈ s.data, c ≠ '\x1b' ∧ c ≠ '\\') :
    ∀ c ∈ (clean_swarm_text s).data, c ≠ '\x1b' ∧ c ≠ '\\' := by
  rw [clean_data_eq h]
  intro c hc
  obtain ⟨c0, hc0, he⟩ := List.mem_map.1 hc
  rcases foldl_charStep_mem box_chars c0 with hf | hf
  · have hc2 : c = c0 := by rw [← he]; exact hf
    rw [hc2]; exact h c0 hc0
  · exact box_vals_safe c (by rw [← he]; exact hf)

/-! ## Claims C2 and C3: the text cleaner's guarantees -/

set_option maxRecDepth 16000

/-- Claim C2 is false as stated: cleaning is not idempotent for every string.
Deleting the inner ANSI sequence of `"\x1b\x1b[0m[0m"` splices the leftover
`ESC` against the leftover `[0m`, so the first clean returns `"\x1b[0m"` and a
second clean deletes it. -/
theorem clean_idempotent_cex :
    clean_swarm_text (clean_swarm_text "\x1b\x1b[0m[0m") ≠
      clean_swarm_text "\x1b\x1b[0m[0m" := by
  decide

/-- Claim C2 (amended): cleaning is idempotent on every string that contains
neither the ESC control character nor a backslash — the two characters that
can begin an ANSI match.  (On such strings the substitution passes are the
identity and the box replacement chain is a pointwise idempotent map.) -/
theorem clean_idempotent_amended (s : String) (h : noEscBs s = true) :
    clean_swarm_text (clean_swarm_text s) = clean_swarm_text s := by
  have hs := noEscBs_spec h
  apply stringDataEq
  calc (clean_swarm_text (clean_swarm_text s)).data
      = (clean_swarm_text s).data.map charFold :=
        clean_data_eq (clean_output_safe hs)
    _ = (s.data.map charFold).map charFold := by rw [clean_data_eq hs]
    _ = s.data.map charFold := map_charFold_idem s.data
    _ = (clean_swarm_text s).data := (clean_data_eq hs).symm

/-- Witness for the amended claim C2 at a concrete box-drawing string. -/
theorem clean_idempotent_amended_witness :
    noEscBs "a╔═╗b" = true ∧
      clean_swarm_text (clean_swarm_text "a╔═╗b") = clean_swarm_text "a╔═╗b" :=
  ⟨by decide, clean_idempotent_amended "a╔═╗b" (by decide)⟩

/-- Claim C3 is false as stated: on the input `"\x1b\x1b[0m[0m┌"` the cleaned
output still contains an ANSI CSI sequence (the spliced `"\x1b[0m"`), and it
still contains a Box Drawing block code point, since `┌` (U+250C) is not in
the module's replacement table. -/
theorem clean_guarantee_cex :
    hasCSI (clean_swarm_text "\x1b\x1b[0m[0m┌").data = true ∧
      (clean_swarm_text "\x1b\x1b[0m[0m┌").data.any isBoxBlock = true := by
  decide

/-- Claim C3 (amended): on a string with no ESC character and no backslash,
cleaning is exactly the character-wise `box_chars` replacement, the output
contains none of the table's box-drawing glyphs (rather than none of the whole
Box Drawing block), and every character outside the table is left verbatim. -/
theorem clean_guarantee_amended (s : String) (h : noEscBs s = true) :
    (clean_swarm_text s).data = s.data.map charFold
    ∧ (∀ c ∈ (clean_swarm_text s).data, isBoxKey c = false)
    ∧ (∀ c ∈ s.data, isBoxKey c = false → charFold c = c) := by
  have hs := noEscBs_spec h
  refine ⟨clean_data_eq hs, ?_, fun c _ hc => charFold_of_not_key hc⟩
  rw [clean_data_eq hs]
  intro c hc
  obtain ⟨c0, _, he⟩ := List.mem_map.1 hc
  rw [← he]
  exact charFold_not_key c0

/-- Witness for the amended claim C3 at a concrete box-drawing string. -/
theorem clean_guarantee_amended_witness :
    noEscBs "a╔─b" = true ∧
      ((clean_swarm_text "a╔─b").data = "a╔─b".data.map charFold
        ∧ (∀ c ∈ (clean_swarm_text "a╔─b").data, isBoxKey c = false)
        ∧ (∀ c ∈ "a╔─b".data, isBoxKey c = false → charFold c = c)) :=
  ⟨by decide, clean_guarantee_amended "a╔─b" (by decide)⟩

/-! ## Claim C7: the batch cleaner is an order- and length-preserving map -/

/-- Modelled from the spec's words for §4.2 (the refinement target of C7):
return a new sequence where each element with a `text` key has that value
passed through the Text Cleaner and every other element passes through
unchanged, with order and count preserved. -/
def batchCleanSpec (F : List JVal) : List JVal :=
  F.map (fun el =>
    match el with
    | JVal.obj fs =>
        if hasKeyF fs "text" then JVal.obj (updateKey fs "text" clean_val) else el
    | _ => el)

theorem cleanLoop_eq : ∀ (xs acc : List JVal), cleanLoop acc xs = acc ++ xs.map cleanItem := by
  intro xs
  induction xs with
  | nil => intro acc; simp [cleanLoop]
  | cons x xs ih =>
    intro acc
    simp only [cleanLoop, List.map_cons]
    rw [ih]
    simp

/-- Claim C7: `clean_swarm_output` equals the element-wise cleaner the spec
describes — the append loop is a map, so the output has the same length, the
same order, each dict with a `text` key gets its text cleaned, and every
other element passes through unchanged. -/
theorem clean_output_is_map (F : List JVal) :
    clean_swarm_output F = batchCleanSpec F
    ∧ (clean_swarm_output F).length = F.length := by
  have h1 : clean_swarm_output F = F.map cleanItem := by
    simp only [clean_swarm_output]
    rw [cleanLoop_eq]
    simp
  constructor
  · rw [h1]; rfl
  · rw [h1, List.length_map]

/-! ## Claim C10: classified fragments always get a real agent id -/

theorem mem_takeWhile_prop {p : Char → Bool} :
    ∀ (l : List Char) (c : Char), c ∈ l.takeWhile p → p c = true := by
  intro l
  induction l with
  | nil => intro c hc; simp [List.takeWhile] at hc
  | cons a l ih =>
    intro c hc
    rw [List.takeWhile_cons] at hc
    by_cases ha : p a
    · rw [if_pos ha] at hc
      rcases List.mem_cons.1 hc with h | h
      · rw [h]; exact ha
      · exact ih c h
    · rw [if_neg ha] at hc
      simp at hc

theorem agentIdHere_form {l : List Char} {g : String} (h : agentIdHere l = some g) :
    ∃ ds : List Char, ds ≠ [] ∧ (∀ c ∈ ds, c.isDigit = true)
      ∧ g = String.mk ("agent_".data ++ ds) := by
  unfold agentIdHere at h
  cases hm : matchLit ['A', 'g', 'e', 'n', 't', ' ', 'a', 'g', 'e', 'n', 't', '_'] l with
  | none => rw [hm] at h; simp at h
  | some rest =>
    rw [hm] at h
    simp only at h
    by_cases he : (rest.takeWhile Char.isDigit).isEmpty
    · rw [if_pos he] at h; simp at h
    · rw [if_neg he] at h
      refine ⟨rest.takeWhile Char.isDigit, ?_, ?_, ?_⟩
      · intro hnil; rw [hnil] at he; simp at he
      · exact fun c hc => mem_takeWhile_prop rest c hc
      · exact (Option.some.inj h).symm

theorem findAgentId_form {l : List Char} {g : String} (h : findAgentId l = some g) :
    ∃ ds : List Char, ds ≠ [] ∧ (∀ c ∈ ds, c.isDigit = true)
      ∧ g = String.mk ("agent_".data ++ ds) := by
  induction l with
  | nil => simp [findAgentId] at h
  | cons c cs ih =>
    rw [findAgentId] at h
    cases ha : agentIdHere (c :: cs) with
    | some g0 =>
      rw [ha] at h
      exact (Option.some.inj h) ▸ agentIdHere_form ha
    | none => rw [ha] at h; exact ih h

theorem agentIdHere_isSome_of_here {lit l} (hl : agentHere lit l = true) :
    (agentIdHere l).isSome = true := by
  unfold agentHere at hl
  cases hm : matchLit ['A', 'g', 'e', 'n', 't', ' ', 'a', 'g', 'e', 'n', 't', '_'] l with
  | none => rw [hm] at hl; simp at hl
  | some rest =>
    rw [hm] at hl
    cases rest with
    | nil => simp at hl
    | cons d rest2 =>
      simp only [Bool.and_eq_true] at hl
      unfold agentIdHere
      rw [hm]
      simp only [List.takeWhile_cons, hl.1]
      simp

theorem scanAgent_found {lit : List Char} :
    ∀ {l : List Char}, scanAgent lit l = true → ∃ g, findAgentId l = some g := by
  intro l
  induction l with
  | nil => intro h; simp [scanAgent] at h
  | cons c cs ih =>
    intro h
    rw [scanAgent, Bool.or_eq_true] at h
    rcases h with h | h
    · have hs := agentIdHere_isSome_of_here h
      obtain ⟨g, hg⟩ := Option.isSome_iff_exists.1 hs
      exact ⟨g, by rw [findAgentId, hg]⟩
    · obtain ⟨g, hg⟩ := ih h
      rw [findAgentId]
      cases ha : agentIdHere (c :: cs) with
      | some g0 => exact ⟨g0, rfl⟩
      | none => exact ⟨g, hg⟩

/-- Claim C10: whenever a fragment is classified as a response or as metrics
(the `Agent agent_\d+.*Response:` / `...Metrics:` search succeeded), the agent
id recorded by the extractor has the form `agent_` followed by one or more
digits, and the `'unknown'` fallback is never produced. -/
theorem agent_id_never_unknown (s : String)
    (h : respPattern s = true ∨ metricsPattern s = true) :
    ∃ ds : List Char, ds ≠ [] ∧ (∀ c ∈ ds, c.isDigit = true)
      ∧ agentIdOf s = String.mk ("agent_".data ++ ds)
      ∧ agentIdOf s ≠ "unknown" := by
  have hf : ∃ g, findAgentId s.data = some g := by
    rcases h with h | h
    · exact scanAgent_found h
    · exact scanAgent_found h
  obtain ⟨g, hg⟩ := hf
  obtain ⟨ds, hne, hdig, hform⟩ := findAgentId_form hg
  have hid : agentIdOf s = String.mk ("agent_".data ++ ds) := by
    unfold agentIdOf
    rw [hg, hform]
  refine ⟨ds, hne, hdig, hid, ?_⟩
  rw [hid]
  intro heq
  have hd : "agent_".data ++ ds = "unknown".data := congrArg String.data heq
  rw [show "agent_".data = ['a', 'g', 'e', 'n', 't', '_'] from rfl,
    show "unknown".data = ['u', 'n', 'k', 'n', 'o', 'w', 'n'] from rfl] at hd
  simp at hd

/-- Witness for claim C10 at a concrete response fragment. -/
theorem agent_id_never_unknown_witness :
    respPattern "Agent agent_1 Response: hi" = true
    ∧ (∃ ds : List Char, ds ≠ [] ∧ (∀ c ∈ ds, c.isDigit = true)
        ∧ agentIdOf "Agent agent_1 Response: hi" = String.mk ("agent_".data ++ ds)
        ∧ agentIdOf "Agent agent_1 Response: hi" ≠ "unknown") :=
  ⟨by decide, agent_id_never_unknown "Agent agent_1 Response: hi" (Or.inl (by decide))⟩

/-! ## Claim C9: the batch cleaner never mutates its argument -/

theorem nth_append_left {α : Type} :
    ∀ (l₁ l₂ : List α) (n : Nat), n < l₁.length → nth (l₁ ++ l₂) n = nth l₁ n := by
  intro l₁
  induction l₁ with
  | nil => intro l₂ n hn; simp at hn
  | cons x l ih =>
    intro l₂ n hn
    cases n with
    | zero => rfl
    | succ m => exact ih l₂ m (by simpa using hn)

theorem nth_concat_self {α : Type} :
    ∀ (l : List α) (x : α), nth (l ++ [x]) l.length = some x := by
  intro l
  induction l with
  | nil => intro x; rfl
  | cons y l ih => intro x; exact ih x

theorem nth_some_lt {α : Type} :
    ∀ (l : List α) (n : Nat) (x : α), nth l n = some x → n < l.length := by
  intro l
  induction l with
  | nil => intro n x h; simp [nth] at h
  | cons y l ih =>
    intro n x h
    cases n with
    | zero => simp
    | succ m => exact Nat.succ_lt_succ (ih m x h)

theorem cleanStepH_cases (h : Heap) (e : HElem) :
    (cleanStepH h e).1 = h ∨ ∃ u, (cleanStepH h e).1 = h ++ [u] := by
  cases e with
  | val v => exact Or.inl rfl
  | ref a =>
    cases hg : nth h a with
    | none => simp [cleanStepH, hg]
    | some fs =>
      by_cases hk : hasKeyF fs "text"
      · exact Or.inr ⟨updateKey fs "text" clean_val, by simp [cleanStepH, hg, hk]⟩
      · simp [cleanStepH, hg, hk]

theorem cleanHeap_grows : ∀ (xs : List HElem) (h : Heap), ∃ t, (cleanHeap h xs).1 = h ++ t := by
  intro xs
  induction xs with
  | nil => intro h; exact ⟨[], by simp [cleanHeap]⟩
  | cons x xs ih =>
    intro h
    have hunf : (cleanHeap h (x :: xs)).1 = (cleanHeap (cleanStepH h x).1 xs).1 := rfl
    obtain ⟨t, ht⟩ := ih (cleanStepH h x).1
    rcases cleanStepH_cases h x with hs | ⟨u, hs⟩
    · exact ⟨t, by rw [hunf, ht, hs]⟩
    · exact ⟨u :: t, by rw [hunf, ht, hs]; simp⟩

/-- Claim C9: `clean_swarm_output`, run over an explicit heap of dict
objects, never writes an existing heap cell (the caller's fragments are
unchanged after the call), returns one output element per input element, and
represents every rewritten element as a freshly allocated copy of the input
dict with the rewritten `text`, at an address that aliases no input object. -/
theorem clean_output_no_mutation : ∀ (xs : List HElem) (h : Heap),
    ((cleanHeap h xs).2.length = xs.length)
    ∧ (∀ a, a < h.length → nth (cleanHeap h xs).1 a = nth h a)
    ∧ (∀ i a fs, nth xs i = some (HElem.ref a) → nth h a = some fs →
        hasKeyF fs "text" = true →
        ∃ b, nth (cleanHeap h xs).2 i = some (HElem.ref b) ∧ h.length ≤ b
          ∧ nth (cleanHeap h xs).1 b = some (updateKey fs "text" clean_val)) := by
  intro xs
  induction xs with
  | nil =>
    intro h
    refine ⟨rfl, fun a _ => rfl, fun i a fs hi _ _ => ?_⟩
    simp [nth] at hi
  | cons x xs ih =>
    intro h
    have hunf1 : (cleanHeap h (x :: xs)).1 = (cleanHeap (cleanStepH h x).1 xs).1 := rfl
    have hunf2 : (cleanHeap h (x :: xs)).2
        = (cleanStepH h x).2 :: (cleanHeap (cleanStepH h x).1 xs).2 := rfl
    obtain ⟨hlen, hpres, helem⟩ := ih (cleanStepH h x).1
    have hgrow : h.length ≤ (cleanStepH h x).1.length := by
      rcases cleanStepH_cases h x with hs | ⟨u, hs⟩ <;> simp [hs]
    have hpres0 : ∀ a, a < h.length → nth (cleanStepH h x).1 a = nth h a := by
      intro a ha
      rcases cleanStepH_cases h x with hs | ⟨u, hs⟩
      · rw [hs]
      · rw [hs]; exact nth_append_left h [u] a ha
    refine ⟨?_, ?_, ?_⟩
    · rw [hunf2]
      simp [hlen]
    · intro a ha
      rw [hunf1, hpres a (lt_of_lt_of_le ha hgrow), hpres0 a ha]
    · intro i a fs hi hha hkey
      cases i with
      | zero =>
        have hx : x = HElem.ref a := by simpa [nth] using hi
        subst hx
        have hs : cleanStepH h (HElem.ref a)
            = (h ++ [updateKey fs "text" clean_val], HElem.ref h.length) := by
          simp [cleanStepH, hha, hkey]
        refine ⟨h.length, ?_, le_refl _, ?_⟩
        · rw [hunf2, hs]
          rfl
        · rw [hunf1, hs]
          obtain ⟨t, ht⟩ := cleanHeap_grows xs (h ++ [updateKey fs "text" clean_val])
          rw [ht, nth_append_left _ t h.length (by simp), nth_concat_self]
      | succ j =>
        have hj : nth xs j = some (HElem.ref a) := by simpa [nth] using hi
        have ha_lt : a < h.length := nth_some_lt h a fs hha
        have hha2 : nth (cleanStepH h x).1 a = some fs := by
          rw [hpres0 a ha_lt]; exact hha
        obtain ⟨b, hb1, hb2, hb3⟩ := helem j a fs hj hha2 hkey
        refine ⟨b, ?_, le_trans hgrow hb2, ?_⟩
        · rw [hunf2]
          simpa [nth] using hb1
        · rw [hunf1]
          exact hb3

/-- Witness for claim C9 on a one-dict heap: the input cell keeps its value
and the cleaned element points at a fresh copy. -/
theorem clean_output_no_mutation_witness :
    ((cleanHeap [[("text", JVal.str "╭")]] [HElem.ref 0]).2.length = 1)
    ∧ (nth (cleanHeap [[("text", JVal.str "╭")]] [HElem.ref 0]).1 0
        = some [("text", JVal.str "╭")])
    ∧ (∃ b, nth (cleanHeap [[("text", JVal.str "╭")]] [HElem.ref 0]).2 0
          = some (HElem.ref b)
        ∧ 1 ≤ b
        ∧ nth (cleanHeap [[("text", JVal.str "╭")]] [HElem.ref 0]).1 b
            = some (updateKey [("text", JVal.str "╭")] "text" clean_val)) := by
  obtain ⟨h1, h2, h3⟩ := clean_output_no_mutation [HElem.ref 0] [[("text", JVal.str "╭")]]
  exact ⟨h1, h2 0 (by decide), h3 0 0 [("text", JVal.str "╭")] rfl rfl (by decide)⟩

/-! ## Claim C4: when the extractor runs to completion -/

/-- Does a fragment carry only a string-valued `text` (the shape on which the
extractor cannot raise)?  Dicts without `text`, and non-dict elements, are
skipped by the loop and are always safe. -/
def strTextFrag : JVal → Bool
  | JVal.obj fs =>
      !(hasKeyF fs "text")
        || (match lookupD fs "text" with
            | JVal.str _ => true
            | _ => false)
  | _ => true

/-- Are all fragments of a payload safe for the extractor? -/
def allStrTexts (l : List JVal) : Bool := l.all strTextFrag

/-- The `swarm_status` slot only ever holds `None` or a string when every
classified text was a string. -/
def statusShape (o : Option JVal) : Prop := o = none ∨ ∃ t, o = some (JVal.str t)

theorem extractStep_ok (kf : List JVal → String → List JVal)
    (cs : ExtractedContent) (item : JVal) (hitem : strTextFrag item = true)
    (hcs : statusShape cs.swarm_status) :
    ∃ cs2, extractStepWith kf cs item = Except.ok cs2 ∧ statusShape cs2.swarm_status := by
  cases item with
  | obj fs =>
    by_cases hk : hasKeyF fs "text"
    · have hstr : ∃ s, lookupD fs "text" = JVal.str s := by
        simp only [strTextFrag, hk, Bool.not_true, Bool.false_or] at hitem
        cases hv : lookupD fs "text" with
        | str s => exact ⟨s, rfl⟩
        | null => rw [hv] at hitem; simp at hitem
        | bool b => rw [hv] at hitem; simp at hitem
        | num n => rw [hv] at hitem; simp at hitem
        | arr xs => rw [hv] at hitem; simp at hitem
        | obj gs => rw [hv] at hitem; simp at hitem
      obtain ⟨s, hs⟩ := hstr
      simp only [extractStepWith]
      rw [if_pos hk, hs]
      simp only [pyInVal]
      by_cases hsw : hasSubS "Swarm Status" s
      · rw [hsw]
        exact ⟨_, rfl, Or.inr ⟨clean_swarm_text s, rfl⟩⟩
      · rw [Bool.not_eq_true] at hsw
        rw [hsw]
        by_cases hr : respPattern s
        · rw [if_pos hr]; exact ⟨_, rfl, hcs⟩
        · rw [if_neg hr]
          by_cases hm : metricsPattern s
          · rw [if_pos hm]; exact ⟨_, rfl, hcs⟩
          · rw [if_neg hm]
            by_cases hck : hasSubS "Collective Knowledge:" s
            · rw [if_pos hck]; exact ⟨_, rfl, hcs⟩
            · rw [if_neg hck]; exact ⟨cs, rfl, hcs⟩
    · simp only [extractStepWith]
      rw [if_neg hk]
      exact ⟨cs, rfl, hcs⟩
  | null => exact ⟨cs, rfl, hcs⟩
  | bool b => exact ⟨cs, rfl, hcs⟩
  | num n => exact ⟨cs, rfl, hcs⟩
  | str s => exact ⟨cs, rfl, hcs⟩
  | arr xs => exact ⟨cs, rfl, hcs⟩

theorem extractGo_ok (kf : List JVal → String → List JVal) :
    ∀ (l : List JVal) (cs : ExtractedContent), allStrTexts l = true →
      statusShape cs.swarm_status →
      ∃ r, extractGoWith kf cs l = Except.ok r ∧ statusShape r.swarm_status := by
  intro l
  induction l with
  | nil => intro cs _ hcs; exact ⟨cs, rfl, hcs⟩
  | cons x xs ih =>
    intro cs hl hcs
    have hx : strTextFrag x = true := by
      have := List.all_eq_true.1 hl x (List.mem_cons_self x xs)
      exact this
    have hxs : allStrTexts xs = true := by
      apply List.all_eq_true.2
      intro y hy
      exact List.all_eq_true.1 hl y (List.mem_cons_of_mem x hy)
    obtain ⟨cs2, hstep, hcs2⟩ := extractStep_ok kf cs x hx hcs
    obtain ⟨r, hgo, hr⟩ := ih cs2 hxs hcs2
    refine ⟨r, ?_, hr⟩
    rw [extractGoWith, hstep]
    exact hgo

/-- Claim C4 is false as stated: a fragment whose `text` holds a non-string
(here the number `42`) makes `'Swarm Status' in text` raise `TypeError`, so
the extractor does not return normally on every fragment sequence with
arbitrary `text` values. -/
theorem extract_total_cex :
    extract_swarm_content [JVal.obj [("text", JVal.num "42")]] = Except.error () := rfl

/-- Claim C4 (amended): on every fragment sequence whose `text` values are
strings — the shape the module is written for — the extractor returns an
`ExtractedContent` normally and never raises; in particular a malformed
embedded knowledge payload (any string at all may sit after the
`Collective Knowledge:` marker) is swallowed, not surfaced. -/
theorem extract_total (frags : List JVal) (h : allStrTexts frags = true) :
    ∃ r, extract_swarm_content frags = Except.ok r := by
  obtain ⟨r, hr, _⟩ := extractGo_ok knowledgeUpdate frags emptyContent h (Or.inl rfl)
  exact ⟨r, hr⟩

/-- Witness for the amended claim C4 — note the malformed knowledge payload:
no exception escapes. -/
theorem extract_total_witness :
    allStrTexts [JVal.obj [("text", JVal.str "Collective Knowledge: [oops")]] = true
    ∧ ∃ r, extract_swarm_content
        [JVal.obj [("text", JVal.str "Collective Knowledge: [oops")]] = Except.ok r :=
  ⟨by decide, extract_total [JVal.obj [("text", JVal.str "Collective Knowledge: [oops")]]
    (by decide)⟩

/-! ## Claim C6: parse-failure handling of the two string-accepting entry points -/

theorem allStrs_isSome :
    ∀ l : List JVal, (∀ v ∈ l, ∃ s, v = JVal.str s) → ∃ ss, allStrs l = some ss := by
  intro l
  induction l with
  | nil => intro _; exact ⟨[], rfl⟩
  | cons v vs ih =>
    intro h
    obtain ⟨s, hv⟩ := h v (List.mem_cons_self v vs)
    obtain ⟨ss, hss⟩ := ih (fun y hy => h y (List.mem_cons_of_mem v hy))
    exact ⟨s :: ss, by simp [allStrs, hv, hss, strOfJVal]⟩

theorem summary_entries_str (ec : ExtractedContent) (maxLen : Nat)
    (hst : statusShape ec.swarm_status) :
    ∀ v ∈ summaryList ec maxLen, ∃ s, v = JVal.str s := by
  intro v hv
  unfold summaryList at hv
  simp only [List.mem_append] at hv
  rcases hv with ((hv | hv) | hv) | hv
  · simp only [List.mem_cons, List.not_mem_nil, or_false] at hv
    rcases hv with hv | hv
    · exact ⟨_, hv⟩
    · exact ⟨_, hv⟩
  · rcases hst with hnone | ⟨t, hsome⟩
    · rw [hnone] at hv
      simp [statusTruthy] at hv
    · rw [hsome] at hv
      by_cases ht : statusTruthy (some (JVal.str t))
      · rw [if_pos ht] at hv
        simp only [statusVal, List.mem_cons, List.not_mem_nil, or_false] at hv
        rcases hv with hv | hv | hv
        · exact ⟨_, hv⟩
        · exact ⟨_, hv⟩
        · exact ⟨t, hv⟩
      · rw [if_neg ht] at hv
        simp at hv
  · by_cases he : ec.agent_responses.isEmpty
    · rw [if_pos he] at hv
      simp at hv
    · rw [if_neg he] at hv
      simp only [List.mem_append, List.mem_cons, List.not_mem_nil, or_false] at hv
      rcases hv with (hv | hv) | hv
      · exact ⟨_, hv⟩
      · exact ⟨_, hv⟩
      · obtain ⟨lns, hlns, hvl⟩ := List.mem_flatten.1 hv
        obtain ⟨r, _, hr⟩ := List.mem_map.1 hlns
        rw [← hr] at hvl
        simp only [respLines, List.mem_cons, List.not_mem_nil, or_false] at hvl
        rcases hvl with hvl | hvl
        · exact ⟨_, hvl⟩
        · exact ⟨_, hvl⟩
  · by_cases he : ec.metrics.isEmpty
    · rw [if_pos he] at hv
      simp at hv
    · rw [if_neg he] at hv
      simp only [List.mem_append, List.mem_cons, List.not_mem_nil, or_false] at hv
      rcases hv with (hv | hv) | hv
      · exact ⟨_, hv⟩
      · exact ⟨_, hv⟩
      · obtain ⟨lns, hlns, hvl⟩ := List.mem_flatten.1 hv
        obtain ⟨m, _, hm⟩ := List.mem_map.1 hlns
        rw [← hm] at hvl
        simp only [metricLines, List.mem_cons, List.not_mem_nil, or_false] at hvl
        rcases hvl with hvl | hvl
        · exact ⟨_, hvl⟩
        · exact ⟨_, hvl⟩

theorem format_ok (ec : ExtractedContent) (maxLen : Nat)
    (hst : statusShape ec.swarm_status) :
    ∃ out, format_swarm_summary ec maxLen = Except.ok out := by
  obtain ⟨ss, hss⟩ := allStrs_isSome _ (summary_entries_str ec maxLen hst)
  exact ⟨pyJoin "\n" ss, by simp [format_swarm_summary, hss]⟩

/-- Claim C6 is false as stated: the persistence variant passes a string
payload straight to `json.loads` with no `try`, so an unparseable payload
raises instead of being wrapped as a synthetic fragment. -/
theorem save_parse_failure_cex :
    save_cleaned_swarm_output (Sum.inr "not json") = Except.error () := rfl

/-- Claim C6 (amended): when the raw payload string fails top-level JSON
parsing, the pipeline entry point wraps it as one synthetic fragment whose
`text` is the raw string and returns normally (for either verbosity), while
the persistence variant propagates the parse error to the caller. -/
theorem payload_parse_failure (s : String) (verbose : Bool) (h : json_loads s = none) :
    (∃ r, display_swarm_analysis [("content", JVal.str s)] verbose = Except.ok r
        ∧ r.cleaned_data = [JVal.obj [("text", JVal.str (clean_swarm_text s))]])
    ∧ save_cleaned_swarm_output (Sum.inr s) = Except.error () := by
  have hcl : clean_swarm_output [JVal.obj [("text", JVal.str s)]]
      = [JVal.obj [("text", JVal.str (clean_swarm_text s))]] := by
    simp [clean_swarm_output, cleanLoop, cleanItem, hasKeyF, updateKey, clean_val]
  have hstr : allStrTexts [JVal.obj [("text", JVal.str (clean_swarm_text s))]] = true := by
    simp [allStrTexts, strTextFrag, hasKeyF, lookupD]
  obtain ⟨r, hr, hshape⟩ :=
    extractGo_ok knowledgeUpdate [JVal.obj [("text", JVal.str (clean_swarm_text s))]]
      emptyContent hstr (Or.inl rfl)
  obtain ⟨out, hout⟩ := format_ok r 500 hshape
  constructor
  · refine ⟨⟨[JVal.obj [("text", JVal.str (clean_swarm_text s))]], r⟩, ?_, rfl⟩
    simp only [display_swarm_analysis]
    rw [show lookupKey [("content", JVal.str s)] "content" = some (JVal.str s) from rfl]
    simp only [h, hcl]
    rw [show extract_swarm_content [JVal.obj [("text", JVal.str (clean_swarm_text s))]]
        = Except.ok r from hr]
    cases verbose with
    | true => simp [hout]
    | false => simp
  · simp only [save_cleaned_swarm_output]
    rw [h]

/-- Witness for the amended claim C6 at the unparseable payload
`"not json"`. -/
theorem payload_parse_failure_witness :
    json_loads "not json" = none
    ∧ ((∃ r, display_swarm_analysis [("content", JVal.str "not json")] true = Except.ok r
          ∧ r.cleaned_data
              = [JVal.obj [("text", JVal.str (clean_swarm_text "not json"))]])
        ∧ save_cleaned_swarm_output (Sum.inr "not json") = Except.error ()) :=
  ⟨rfl, payload_parse_failure "not json" true rfl⟩

/-! ## Claim C1: the end-to-end example -/

/-- Claim C1 is false as stated: on the spec's end-to-end example the second
fragment is consumed by the Response branch of the mutually exclusive `elif`
chain (and `.` does not cross the `\n\n`, so not even the metrics pattern
matches that fragment), hence `metrics` comes out empty rather than holding
`("agent_1", "latency=5ms")`. -/
theorem extract_example_cex :
    metricsOf (extract_swarm_content
      [JVal.obj [("text", JVal.str "Swarm Status: active")],
       JVal.obj [("text",
         JVal.str "Agent agent_1 Response: Hello\n\nMetrics: latency=5ms")]])
      ≠ [MetricEntry.mk "agent_1" "latency=5ms"] := by
  have h0 : metricsOf (extract_swarm_content
      [JVal.obj [("text", JVal.str "Swarm Status: active")],
       JVal.obj [("text",
         JVal.str "Agent agent_1 Response: Hello\n\nMetrics: latency=5ms")]])
      = [] := rfl
  intro h
  rw [h0] at h
  exact List.noConfusion h

/-- Claim C1 (amended): on the example input the extractor returns
`swarm_status = "Swarm Status: active"` and
`agent_responses = [("agent_1", "Hello")]` as claimed, but `metrics` (and
`collective_knowledge`) are empty, the whole second fragment having been
classified as a response. -/
theorem extract_example_amended :
    extract_swarm_content
      [JVal.obj [("text", JVal.str "Swarm Status: active")],
       JVal.obj [("text",
         JVal.str "Agent agent_1 Response: Hello\n\nMetrics: latency=5ms")]]
      = Except.ok ⟨some (JVal.str "Swarm Status: active"),
          [AgentResponse.mk "agent_1" "Hello"], [], []⟩ := rfl

/-! ## Claim C5: where the knowledge branch starts parsing -/

/-- Claim C5 is false as stated: the extractor's `text.find('[')` starts from
position 0, not from the `Collective Knowledge:` marker.  On a fragment whose
whole text is the JSON array `["Collective Knowledge: [", "x"]`, the code
parses from index 0 and stores two knowledge items, while parsing from the
first `[` at or after the marker (the claim's reading, modelled by
`extract_content_spec_find`) fails and leaves the section empty. -/
theorem knowledge_find_cex :
    (knowledgeOf (extract_swarm_content
        [JVal.obj [("text", JVal.str "[\"Collective Knowledge: [\", \"x\"]")]])).length
      ≠ (knowledgeOf (extract_content_spec_find
        [JVal.obj [("text", JVal.str "[\"Collective Knowledge: [\", \"x\"]")]])).length := by
  have h1 : (knowledgeOf (extract_swarm_content
      [JVal.obj [("text", JVal.str "[\"Collective Knowledge: [\", \"x\"]")]])).length
      = 2 := rfl
  have h2 : (knowledgeOf (extract_content_spec_find
      [JVal.obj [("text", JVal.str "[\"Collective Knowledge: [\", \"x\"]")]])).length
      = 0 := rfl
  intro h
  rw [h1, h2] at h
  exact Nat.succ_ne_zero 1 h

/-- Claim C5 (amended): for a fragment that reaches the knowledge branch, the
extractor's result is exactly `knowledgeUpdate [] text` — the branch that
locates the JSON body at the first `[` of the whole fragment text (index
measured from position 0, so possibly before the marker) and parses from
there. -/
theorem knowledge_find_amended (s : String)
    (h1 : hasSubS "Swarm Status" s = false) (h2 : respPattern s = false)
    (h3 : metricsPattern s = false)
    (h4 : hasSubS "Collective Knowledge:" s = true) :
    knowledgeOf (extract_swarm_content [JVal.obj [("text", JVal.str s)]])
      = knowledgeUpdate [] s := by
  simp only [extract_swarm_content, extractGoWith, extractStepWith]
  rw [if_pos (show hasKeyF [("text", JVal.str s)] "text" = true from rfl)]
  rw [show lookupD [("text", JVal.str s)] "text" = JVal.str s from rfl]
  simp only [pyInVal, h1, h2, h3, h4]
  simp [knowledgeOf, emptyContent]

/-- Witness for the amended claim C5 at a well-formed knowledge fragment. -/
theorem knowledge_find_amended_witness :
    (hasSubS "Swarm Status" "Collective Knowledge: [\"a\"]" = false
      ∧ respPattern "Collective Knowledge: [\"a\"]" = false
      ∧ metricsPattern "Collective Knowledge: [\"a\"]" = false
      ∧ hasSubS "Collective Knowledge:" "Collective Knowledge: [\"a\"]" = true)
    ∧ knowledgeOf (extract_swarm_content
        [JVal.obj [("text", JVal.str "Collective Knowledge: [\"a\"]")]])
      = knowledgeUpdate [] "Collective Knowledge: [\"a\"]" :=
  ⟨⟨by decide, by decide, by decide, by decide⟩,
   knowledge_find_amended "Collective Knowledge: [\"a\"]"
     (by decide) (by decide) (by decide) (by decide)⟩

/-! ## Claim C8: the truncation boundary of the summary formatter -/

theorem strDataApp (a b : String) : (a ++ b).data = a.data ++ b.data := by
  cases a
  cases b
  rfl

/-- Claim C8: with `max_response_length = 10`, an 11-character response body
is rendered as exactly its first 10 characters followed by the `...` marker,
while a 10-character body is rendered in full with no marker; lengths and the
slice count characters (code points), not bytes. -/
theorem format_truncation (id r1 r2 : String) (h1 : r1.length = 11)
    (h2 : r2.length = 10) :
    format_swarm_summary ⟨none, [AgentResponse.mk id r1], [], []⟩ 10
      = Except.ok ("SWARM ANALYSIS SUMMARY" ++ "\n" ++ pyRepeat "=" 60 ++ "\n"
          ++ "\nAGENT RESPONSES:" ++ "\n" ++ pyRepeat "-" 40 ++ "\n"
          ++ "\n" ++ id ++ ":" ++ "\n" ++ pyTake 10 r1 ++ "...")
    ∧ format_swarm_summary ⟨none, [AgentResponse.mk id r2], [], []⟩ 10
      = Except.ok ("SWARM ANALYSIS SUMMARY" ++ "\n" ++ pyRepeat "=" 60 ++ "\n"
          ++ "\nAGENT RESPONSES:" ++ "\n" ++ pyRepeat "-" 40 ++ "\n"
          ++ "\n" ++ id ++ ":" ++ "\n" ++ r2) := by
  have ht1 : r1.length > 10 := by omega
  have ht2 : ¬(r2.length > 10) := by omega
  constructor
  · simp only [format_swarm_summary, summaryList, statusTruthy, respLines, metricLines,
      List.isEmpty, List.map, List.flatten, if_pos ht1]
    simp only [allStrs, strOfJVal, pyJoin]
    refine congrArg Except.ok ?_
    apply stringDataEq
    simp [strDataApp, List.append_assoc]
  · simp only [format_swarm_summary, summaryList, statusTruthy, respLines, metricLines,
      List.isEmpty, List.map, List.flatten, if_neg ht2]
    simp only [allStrs, strOfJVal, pyJoin]
    refine congrArg Except.ok ?_
    apply stringDataEq
    simp [strDataApp, List.append_assoc]

/-- Witness for claim C8 with multi-byte characters in the 11-character body:
truncation counts code points. -/
theorem format_truncation_witness :
    ("héllo wörld".length = 11 ∧ "0123456789".length = 10)
    ∧ (format_swarm_summary ⟨none, [AgentResponse.mk "agent_7" "héllo wörld"], [], []⟩ 10
        = Except.ok ("SWARM ANALYSIS SUMMARY" ++ "\n" ++ pyRepeat "=" 60 ++ "\n"
            ++ "\nAGENT RESPONSES:" ++ "\n" ++ pyRepeat "-" 40 ++ "\n"
            ++ "\n" ++ "agent_7" ++ ":" ++ "\n" ++ pyTake 10 "héllo wörld" ++ "...")
      ∧ format_swarm_summary ⟨none, [AgentResponse.mk "agent_7" "0123456789"], [], []⟩ 10
        = Except.ok ("SWARM ANALYSIS SUMMARY" ++ "\n" ++ pyRepeat "=" 60 ++ "\n"
            ++ "\nAGENT RESPONSES:" ++ "\n" ++ pyRepeat "-" 40 ++ "\n"
            ++ "\n" ++ "agent_7" ++ ":" ++ "\n" ++ "0123456789")) :=
  ⟨⟨by decide, by decide⟩,
   format_truncation "agent_7" "héllo wörld" "0123456789" (by decide) (by decide)⟩
